import Mathlib

/-!
# Marzipano tile-visibility search and texture cache engine: verification

Shallow embedding of the core of the `fwartner/marzipano` repository:

* the bucket-hash `Set` collection (`src/unnamed/part_014`, the file
  `src/collections/Set.js`), including the faithful JavaScript semantics of its
  `forEach` method, whose loop counters are declared `const` yet incremented;
* the `TileSearcher` depth-first frontier search (`src/unnamed/part_014`,
  `src/TileSearcher.js`);
* the `TextureStore` frame protocol, update algorithm, memory-budget eviction
  and pin/unpin reference counting (`src/src/TextureStore.js`);
* the `TextureStoreItem` load/cancel lifecycle (`src/src/TextureStore.js`);
* the `CubeTile` and `FlatTile` `hash`/`equals`/`cmp` operations
  (`src/unnamed/part_014` and `src/unnamed/part_013`).

The collection classes `collections/Map.js`, `collections/LruSet.js` and the
utilities `util/mod.js`, `util/cmp.js`, `util/hash.js`, `util/chain.js`,
`util/retry.js` are referenced by the sources but are not part of the provided
source tree; definitions standing in for them are modelled from the
specification and are marked `Modelled from the spec:` in their doc comments.

JavaScript numbers are embedded as `ℤ` or `ℚ` (every quantity manipulated here
is an integer or a small exact rational, so IEEE-754 rounding is irrelevant);
`Date.now()` is embedded as a monotone logical clock carried in the store
state; thrown exceptions are embedded as an explicit error component of each
operation's result, alongside the state of the object at the moment of the
throw (JavaScript exceptions leave already-performed field assignments in
place).
-/

set_option maxHeartbeats 1000000

namespace Marzipano

/-- Errors thrown by the embedded JavaScript code. `typeError` is the runtime
`TypeError: Assignment to constant variable`; the others are the `Error`
values thrown explicitly by the sources, distinguished by their message. -/
inductive JsErr : Type
  | typeError
  | invalidCapacity
  | sequence
  | loadAlreadyCached
  | unloadNotCached
  | unpinNotPinned
  | startingTileNotVisible
  deriving DecidableEq, Repr

/-- Per-tile notifications emitted by the texture store
(`textureStartLoad`, `textureLoad`, `textureUnload`, `textureInvalid`,
`textureCancel`, `textureError`). -/
inductive TexEvent (α : Type) : Type
  | startLoad (tile : α)
  | load (tile : α)
  | unload (tile : α)
  | invalid (tile : α)
  | cancelEv (tile : α)
  | errorEv (tile : α)
  deriving DecidableEq, Repr

/-- Modelled from the spec: `src/util/mod.js` is not in the provided tree.
The standard nonnegative remainder used for bucket placement
(`mod(element.hash(), this._capacity)`); `Int.emod` is nonnegative for a
positive modulus. -/
def jsMod (a : ℤ) (n : ℕ) : ℕ :=
  (a % (n : ℤ)).toNat

/--
The bucket-hash `Set` collection of `src/unnamed/part_014`
(`src/collections/Set.js`): an array of `_capacity` buckets, each a list of
elements. The bucket array is embedded as a total function from bucket index
to bucket contents (indices `≥ capacity` are never read or written). Element
`equals` is structural equality of `α`; the element `hash()` method is passed
explicitly to each operation that needs it.
-/
structure SetModel (α : Type) : Type where
  capacity : ℕ
  buckets : ℕ → List α
  size : ℕ

/-- The `Set` state built by the constructor: `_capacity` is initialised from
`this._capacity || defaultCapacity`, and `this._capacity` is `undefined` on a
fresh object, so the default `64` is always used; all buckets start empty. -/
def SetModel.mkDefault (α : Type) : SetModel α :=
  { capacity := 64, buckets := fun _ => [], size := 0 }

/-- The `Set(capacity)` constructor from `src/unnamed/part_014`: it validates
the `capacity` argument (throwing on a non-integer or a value below one;
non-integer doubles are outside this embedding, which takes an integer or
`null`/`undefined` argument) and then *ignores* it, reading the still-undefined
field `this._capacity` instead: `this._capacity = this._capacity ||
defaultCapacity`. -/
def SetModel.new (α : Type) (capacity : Option ℤ) : Except JsErr (SetModel α) :=
  match capacity with
  | some c => if c < 1 then .error .invalidCapacity else .ok (SetModel.mkDefault α)
  | none => .ok (SetModel.mkDefault α)

variable {α : Type} [DecidableEq α] {σ : Type}

/-- `Set.prototype.has`: scan the bucket selected by the element's hash. -/
def SetModel.has (hash : α → ℤ) (s : SetModel α) (x : α) : Bool :=
  x ∈ s.buckets (jsMod (hash x) s.capacity)

/-- `Set.prototype.add`: if an equal element is already in the bucket it is
replaced in place (with structural equality the bucket is unchanged) and
returned; otherwise the element is appended to its bucket and `null`
(embedded as `none`) is returned. -/
def SetModel.add (hash : α → ℤ) (s : SetModel α) (x : α) : SetModel α × Option α :=
  let h := jsMod (hash x) s.capacity
  let bucket := s.buckets h
  if x ∈ bucket then
    (s, some x)
  else
    ({ s with buckets := Function.update s.buckets h (bucket ++ [x]),
              size := s.size + 1 }, none)

/-- `Set.prototype.clear`: empty every bucket and reset the size. -/
def SetModel.clear (s : SetModel α) : SetModel α :=
  { s with buckets := fun _ => [], size := 0 }

/--
`Set.prototype.forEach` from `src/unnamed/part_014`, embedded with the actual
ECMAScript semantics of its declarations:

```
Set.prototype.forEach = function(fn) {
  const count = 0;
  for (const i = 0; i < this._capacity; i++) {
    const bucket = this._buckets[i];
    for (const j = 0; j < bucket.length; j++) {
      fn(bucket[j]);
      count += 1;
    }
  }
  return count;
};
```

`count`, `i` and `j` are `const` bindings, and assignment to a `const` binding
throws a `TypeError` at runtime. Hence, whenever `0 < this._capacity`, the
first outer iteration runs with `i = 0` and either (a) bucket `0` is empty, the
inner loop exits immediately, and the outer update `i++` throws, or (b) bucket
`0` is nonempty, `fn(bucket[0])` is invoked once, and `count += 1` throws.
When `this._capacity = 0` the loop body never runs and `count = 0` is
returned. The callback may itself throw (it mutates the surrounding store
state `σ` and may report an error), which propagates. No further behaviour is
reachable, so this function is the exact big-step evaluation of the method. -/
def SetModel.forEachJS (s : SetModel α) (st : σ) (fn : σ → α → σ × Option JsErr) :
    σ × Except JsErr ℕ :=
  if 0 < s.capacity then
    match s.buckets 0 with
    | [] => (st, .error .typeError)
    | b :: _ =>
        match fn st b with
        | (st', some e) => (st', .error e)
        | (st', none) => (st', .error .typeError)
  else
    (st, .ok 0)

/-- Modelled from the spec: `src/collections/Map.js` is not in the provided
tree. A map from tiles to values with `get`/`set`/`del`/`has` and entry
iteration, embedded as an association list keyed by structural equality
(spec §9: "implement as an explicit map from tile to count"). -/
abbrev AList (α β : Type) : Type := List (α × β)

/-- Modelled from the spec: `collections/Map.js` lookup — the value stored
for `k`, or `none` (`null`). -/
def alGet : AList α β → α → Option β
  | [], _ => none
  | p :: rest, k => if p.1 = k then some p.2 else alGet rest k

/-- Modelled from the spec: `collections/Map.js` update — replace the binding
of `k` in place, or append a new one. -/
def alSet : AList α β → α → β → AList α β
  | [], k, v => [(k, v)]
  | p :: rest, k, v => if p.1 = k then (k, v) :: rest else p :: alSet rest k v

/-- Modelled from the spec: `collections/Map.js` deletion — remove the
binding of `k` when present. -/
def alDel : AList α β → α → AList α β
  | [], _ => []
  | p :: rest, k => if p.1 = k then alDel rest k else p :: alDel rest k

/-- Modelled from the spec: `collections/Map.js` membership. -/
def alHas (m : AList α β) (k : α) : Bool :=
  (alGet m k).isSome

/-- Modelled from the spec: `src/collections/LruSet.js` is not in the provided
tree. Glossary: "LRU set: bounded collection evicting its least-recently
inserted member on overflow". The element list is kept oldest first. -/
structure LruSet (α : Type) : Type where
  capacity : ℕ
  elems : List α
  deriving DecidableEq, Repr

/-- LRU membership. -/
def LruSet.has (l : LruSet α) (x : α) : Bool :=
  x ∈ l.elems

/-- LRU insertion: an element already present becomes the newest; otherwise
the element is appended as the newest, and if the set was full the
least-recently-inserted member is evicted and returned. -/
def LruSet.add (l : LruSet α) (x : α) : LruSet α × Option α :=
  if x ∈ l.elems then
    ({ l with elems := l.elems.erase x ++ [x] }, none)
  else if l.capacity ≤ l.elems.length then
    match l.elems with
    | [] => ({ l with elems := [x] }, none)
    | o :: rest => ({ l with elems := rest ++ [x] }, some o)
  else
    ({ l with elems := l.elems ++ [x] }, none)

/-- LRU removal: the element is removed when present and returned. -/
def LruSet.remove (l : LruSet α) (x : α) : LruSet α × Option α :=
  if x ∈ l.elems then ({ l with elems := l.elems.erase x }, some x)
  else (l, none)

/-- LRU clearing. -/
def LruSet.clear (l : LruSet α) : LruSet α :=
  { l with elems := [] }

/-- The four states of the `TextureStore` frame protocol
(`src/src/TextureStore.js`, the `State` table). -/
inductive StState : Type
  | IDLE
  | START
  | MARK
  | END
  deriving DecidableEq, Repr

/-- The store-visible data of a `TextureStoreItem`: whether its load is still
pending (`_cancel` non-null), and whether `asset()` and `texture()` are
non-null. -/
structure ItemRec : Type where
  loading : Bool
  hasAsset : Bool
  hasTexture : Bool
  deriving DecidableEq, Repr

/-- The options of the `TextureStore` constructor (`defaultOptions`). -/
structure StoreOpts : Type where
  previouslyVisibleCacheSize : ℕ
  maxGpuMemory : ℚ
  enforceMemoryBudget : Bool
  deriving DecidableEq, Repr

/-- `defaultOptions` from `src/src/TextureStore.js`. -/
def defaultOptions : StoreOpts :=
  { previouslyVisibleCacheSize := 512
    maxGpuMemory := 256 * 1024 * 1024
    enforceMemoryBudget := true }

/--
The `TextureStore` state (`src/src/TextureStore.js`, constructor). The
temporary arrays `_noLongerVisible`, `_visibleAgain`, `_evicted` are part of
the state, as in the source. `Date.now()` is embedded as the monotone logical
`clock`; emitted notifications are accumulated in `events`.
-/
structure TextureStore (α : Type) : Type where
  state : StState
  delimCount : ℤ
  itemMap : AList α ItemRec
  visible : SetModel α
  previouslyVisible : LruSet α
  pinMap : AList α ℕ
  maxGpuMemory : ℚ
  enforceMemoryBudget : Bool
  currentGpuMemory : ℚ
  tileMemoryMap : AList α ℚ
  tileAccessMap : AList α ℕ
  tileHitCount : ℕ
  tileMissCount : ℕ
  newVisible : SetModel α
  noLongerVisible : List α
  visibleAgain : List α
  evicted : List α
  clock : ℕ
  events : List (TexEvent α)

/-- The `TextureStore` constructor: IDLE state, zero open frames, empty
caches; `_visible` and `_newVisible` are `new Set()` (default capacity 64),
`_previouslyVisible` is `new LruSet(opts.previouslyVisibleCacheSize)`. -/
def TextureStore.mk' (α : Type) (opts : StoreOpts) : TextureStore α :=
  { state := .IDLE
    delimCount := 0
    itemMap := []
    visible := SetModel.mkDefault α
    previouslyVisible := { capacity := opts.previouslyVisibleCacheSize, elems := [] }
    pinMap := []
    maxGpuMemory := opts.maxGpuMemory
    enforceMemoryBudget := opts.enforceMemoryBudget
    currentGpuMemory := 0
    tileMemoryMap := []
    tileAccessMap := []
    tileHitCount := 0
    tileMissCount := 0
    newVisible := SetModel.mkDefault α
    noLongerVisible := []
    visibleAgain := []
    evicted := []
    clock := 0
    events := [] }

/-- The JavaScript expression `v || d` on numbers: `0`, `undefined` and `null`
are falsy and select the default. (`tile.width` in the source is a plain
property read with a `|| 512` fallback; tiles without the property yield
`none`.) -/
def jsNumOr (v : Option ℚ) (d : ℚ) : ℚ :=
  match v with
  | some x => if x = 0 then d else x
  | none => d

/-- `TextureStore.prototype._estimateTextureMemory`: RGBA bytes with a mipmap
allowance, `width * height * 4 * 1.33`, with `1.33` embedded as the exact
rational `133/100` (no claim depends on the double-rounding of the literal). -/
def TextureStore.estimateTextureMemory (widthOf heightOf : α → Option ℚ) (t : α) : ℚ :=
  jsNumOr (widthOf t) 512 * jsNumOr (heightOf t) 512 * 4 * (133 / 100)

/-- `TextureStore.prototype._loadTile`: throws if the tile is already cached;
otherwise creates a `TextureStoreItem` (which emits `textureStartLoad` and
starts the asynchronous load, so the fresh item has a pending cancel handle
and no texture yet), stores it, and adds the estimated memory. -/
def TextureStore.loadTile (widthOf heightOf : α → Option ℚ) (s : TextureStore α) (t : α) :
    TextureStore α × Option JsErr :=
  if alHas s.itemMap t then (s, some .loadAlreadyCached)
  else
    let item : ItemRec := { loading := true, hasAsset := false, hasTexture := false }
    let s := { s with events := s.events ++ [TexEvent.startLoad t], itemMap := alSet s.itemMap t item }
    let mem := TextureStore.estimateTextureMemory widthOf heightOf t
    ({ s with tileMemoryMap := alSet s.tileMemoryMap t mem,
              currentGpuMemory := s.currentGpuMemory + mem }, none)

/-- `TextureStore.prototype._unloadTile`: throws if the tile is not cached;
otherwise removes it from the item map, subtracts its tracked memory, drops
its access entry and destroys the item. Destroying an item with a pending
load invokes its cancel handle with a `CancelError` (whose completion
callback emits `textureCancel`); destroying a settled item releases asset and
texture and emits `textureUnload`. -/
def TextureStore.unloadTile (s : TextureStore α) (t : α) : TextureStore α × Option JsErr :=
  match alGet s.itemMap t with
  | none => (s, some .unloadNotCached)
  | some item =>
      let s := { s with itemMap := alDel s.itemMap t }
      let mem := (alGet s.tileMemoryMap t).getD (0 : ℚ)
      let s := { s with currentGpuMemory := s.currentGpuMemory - mem,
                        tileMemoryMap := alDel s.tileMemoryMap t,
                        tileAccessMap := alDel s.tileAccessMap t }
      if item.loading then ({ s with events := s.events ++ [TexEvent.cancelEv t] }, none)
      else ({ s with events := s.events ++ [TexEvent.unload t] }, none)

/-- `TextureStore.prototype.startFrame`: callable from IDLE or START (throws
otherwise, before any mutation); enters START and increments the open-frame
counter. -/
def TextureStore.startFrame (s : TextureStore α) : TextureStore α × Option JsErr :=
  if s.state = .IDLE ∨ s.state = .START then
    ({ s with state := .START, delimCount := s.delimCount + 1 }, none)
  else
    (s, some .sequence)

/-- `TextureStore.prototype.markTile`: callable from START or MARK (throws
otherwise, before any mutation); enters MARK, records the access time,
updates the hit/miss telemetry (a hit iff the tile has an item with a loaded
texture), refreshes the texture of a dynamic asset (an effect on the external
texture object, not on the store state), and adds the tile to the
newly-visible set. -/
def TextureStore.markTile (hash : α → ℤ) (s : TextureStore α) (t : α) :
    TextureStore α × Option JsErr :=
  if s.state = .START ∨ s.state = .MARK then
    let s := { s with state := .MARK }
    let s := { s with tileAccessMap := alSet s.tileAccessMap t s.clock, clock := s.clock + 1 }
    let item := alGet s.itemMap t
    let s :=
      if (item.map (·.hasTexture)).getD false then { s with tileHitCount := s.tileHitCount + 1 }
      else { s with tileMissCount := s.tileMissCount + 1 }
    ({ s with newVisible := (s.newVisible.add hash t).1 }, none)
  else
    (s, some .sequence)

/-- The eviction candidate records built by
`TextureStore.prototype._evictToMeetBudget`. -/
structure EvictCandidate (α : Type) : Type where
  tile : α
  lastAccess : ℕ
  timeSinceAccess : ℤ
  memorySize : ℚ

/-- Stable insertion of a candidate into a list sorted by ascending last
access (the JavaScript `candidates.sort((a, b) => a.lastAccess -
b.lastAccess)`, which is stable in modern engines). -/
def insertCand (c : EvictCandidate α) : List (EvictCandidate α) → List (EvictCandidate α)
  | [] => [c]
  | d :: ds => if c.lastAccess ≤ d.lastAccess then c :: d :: ds else d :: insertCand c ds

/-- Stable sort by ascending last access. -/
def sortByAccess (cs : List (EvictCandidate α)) : List (EvictCandidate α) :=
  cs.foldr insertCand []

/-- The eviction loop of `_evictToMeetBudget`: walk the sorted candidates;
`break` as soon as `currentGpuMemory <= maxGpuMemory`, else push the
candidate's tile onto `evicted` and remove it from `previouslyVisible`.
(The loop reads `this._currentGpuMemory`, which no statement inside the loop
modifies: memory accounting only changes later, in `_unloadTile`.) -/
def evictLoop : TextureStore α → List (EvictCandidate α) → TextureStore α
  | s, [] => s
  | s, c :: rest =>
      if s.currentGpuMemory ≤ s.maxGpuMemory then s
      else
        evictLoop
          { s with evicted := s.evicted ++ [c.tile],
                   previouslyVisible := (s.previouslyVisible.remove c.tile).1 }
          rest

/-- `TextureStore.prototype._evictToMeetBudget`: collect every cached tile
that is neither pinned nor in `this._visible` (the *previous* frame's visible
set: `_update` swaps `_visible` and `_newVisible` only after this runs) and
that has a loaded texture; sort the candidates by ascending last access; run
the eviction loop. Candidate collection iterates `this._itemMap.forEach((item,
tile) => ...)`; `collections/Map.js` is not in the provided tree, and is
modelled from the spec as iteration over the map's entries, binding the
callback's two parameters to each entry's value and key as the call site
intends. -/
def TextureStore.evictToMeetBudget (hash : α → ℤ) (s : TextureStore α) : TextureStore α :=
  let currentTime := s.clock
  let candidates := s.itemMap.foldl
    (fun acc p =>
      if alHas s.pinMap p.1 || SetModel.has hash s.visible p.1 then acc
      else if !p.2.hasTexture then acc
      else
        let lastAccess := (alGet s.tileAccessMap p.1).getD 0
        acc ++ [{ tile := p.1,
                  lastAccess := lastAccess,
                  timeSinceAccess := (currentTime : ℤ) - (lastAccess : ℤ),
                  memorySize := (alGet s.tileMemoryMap p.1).getD 0 }])
    []
  evictLoop s (sortByAccess candidates)

/-- Sequencing of two store mutations in the presence of exceptions: an
exception aborts the rest of the method but keeps the assignments already
performed. -/
def seqS (r : σ × Option JsErr) (f : σ → σ × Option JsErr) : σ × Option JsErr :=
  match r with
  | (s, some e) => (s, some e)
  | (s, none) => f s

/-- Sequencing of a `Set.prototype.forEach` call (which returns a count on
normal completion) with the rest of a method. -/
def bindS (r : σ × Except JsErr ℕ) (f : σ → σ × Option JsErr) : σ × Option JsErr :=
  match r with
  | (s, .error e) => (s, some e)
  | (s, .ok _) => f s

/-- Iteration of a plain JavaScript array's `forEach` whose callback may
throw: the first exception aborts the iteration. -/
def foldS (f : σ → β → σ × Option JsErr) : σ → List β → σ × Option JsErr
  | s, [] => (s, none)
  | s, x :: xs =>
      match f s x with
      | (s', some e) => (s', some e)
      | (s', none) => foldS f s' xs

/--
`TextureStore.prototype._update`, statement by statement:

1. clear `_noLongerVisible` and fill it by `this._visible.forEach` with the
   tiles absent from `_newVisible` (this is `Set.prototype.forEach`, whose
   `const` loop counters make it throw; the exception propagates out of
   `_update`, so on every store whose visible set has positive capacity no
   later step runs);
2. clear `_visibleAgain` and fill it by `this._newVisible.forEach` with the
   tiles present in `_previouslyVisible`, then remove those from
   `_previouslyVisible`;
3. for each tile in `_noLongerVisible`: with a loaded texture, insert into
   `_previouslyVisible`, collecting the member evicted by the LRU; with an
   item but no texture, unload immediately;
4. if the budget is enforced and current memory exceeds the maximum, run
   `_evictToMeetBudget`;
5. unload every tile in `_evicted` that is not pinned;
6. load every tile of `_newVisible` lacking an item;
7. swap `_visible` and `_newVisible`, clear the new `_newVisible` and the
   temporaries.
-/
def TextureStore.update (hash : α → ℤ) (widthOf heightOf : α → Option ℚ)
    (s0 : TextureStore α) : TextureStore α × Option JsErr :=
  let s := { s0 with noLongerVisible := ([] : List α) }
  bindS (SetModel.forEachJS s.visible s (fun st t =>
      (if SetModel.has hash st.newVisible t then st
       else { st with noLongerVisible := st.noLongerVisible ++ [t] }, none))) fun s =>
  let s := { s with visibleAgain := ([] : List α) }
  bindS (SetModel.forEachJS s.newVisible s (fun st t =>
      (if st.previouslyVisible.has t then { st with visibleAgain := st.visibleAgain ++ [t] }
       else st, none))) fun s =>
  let s := s.visibleAgain.foldl
    (fun st t => { st with previouslyVisible := (st.previouslyVisible.remove t).1 }) s
  let s := { s with evicted := ([] : List α) }
  seqS (foldS (fun st t =>
      match alGet st.itemMap t with
      | some item =>
          if item.hasTexture then
            let r := st.previouslyVisible.add t
            let st := { st with previouslyVisible := r.1 }
            match r.2 with
            | some other => ({ st with evicted := st.evicted ++ [other] }, none)
            | none => (st, none)
          else TextureStore.unloadTile st t
      | none => (st, none)) s s.noLongerVisible) fun s =>
  let s :=
    if s.enforceMemoryBudget && decide (s.maxGpuMemory < s.currentGpuMemory) then
      TextureStore.evictToMeetBudget hash s
    else s
  seqS (foldS (fun st t =>
      if alHas st.pinMap t then (st, none) else TextureStore.unloadTile st t) s s.evicted) fun s =>
  bindS (SetModel.forEachJS s.newVisible s (fun st t =>
      if (alGet st.itemMap t).isNone then TextureStore.loadTile widthOf heightOf st t
      else (st, none))) fun s =>
  let tmp := s.visible
  let s := { s with visible := s.newVisible, newVisible := tmp }
  let s := { s with newVisible := s.newVisible.clear }
  ({ s with noLongerVisible := ([] : List α), visibleAgain := ([] : List α),
            evicted := ([] : List α) }, none)

/-- `TextureStore.prototype.endFrame`: callable from START, MARK or END
(throws otherwise, before any mutation); enters END and decrements the
open-frame counter; when the counter reaches zero, runs `_update` and, if it
returns normally, enters IDLE. An exception from `_update` propagates,
leaving the store in END. -/
def TextureStore.endFrame (hash : α → ℤ) (widthOf heightOf : α → Option ℚ)
    (s : TextureStore α) : TextureStore α × Option JsErr :=
  if s.state = .START ∨ s.state = .MARK ∨ s.state = .END then
    let s := { s with state := .END, delimCount := s.delimCount - 1 }
    if s.delimCount = 0 then
      match TextureStore.update hash widthOf heightOf s with
      | (s', some e) => (s', some e)
      | (s', none) => ({ s' with state := .IDLE }, none)
    else (s, none)
  else
    (s, some .sequence)

/-- `TextureStore.prototype.pin`: increment the reference count, store it,
load the tile if it has no cached item (regardless of visibility), and
return the new count. The load cannot throw here because it is guarded by
the item-map check. -/
def TextureStore.pin (widthOf heightOf : α → Option ℚ) (s : TextureStore α) (t : α) :
    TextureStore α × ℕ × Option JsErr :=
  let count := (alGet s.pinMap t).getD 0 + 1
  let s := { s with pinMap := alSet s.pinMap t count }
  if alHas s.itemMap t then (s, count, none)
  else
    match TextureStore.loadTile widthOf heightOf s t with
    | (s', e) => (s', count, e)

/-- `TextureStore.prototype.unpin`: throws when the tile is not pinned (a
zero or missing count); otherwise decrements the count, keeping the map entry
while the count is positive and deleting it at zero, in which case the tile
is unloaded immediately unless it is in the visible or previously-visible
set. Returns the decremented count. -/
def TextureStore.unpin (hash : α → ℤ) (s : TextureStore α) (t : α) :
    TextureStore α × ℕ × Option JsErr :=
  let count0 := (alGet s.pinMap t).getD 0
  if count0 = 0 then (s, 0, some .unpinNotPinned)
  else
    let count := count0 - 1
    if 0 < count then ({ s with pinMap := alSet s.pinMap t count }, count, none)
    else
      let s := { s with pinMap := alDel s.pinMap t }
      if !SetModel.has hash s.visible t && !s.previouslyVisible.has t then
        match TextureStore.unloadTile s t with
        | (s', e) => (s', count, e)
      else (s, count, none)

/-- Return type of `TextureStore.prototype.query`. -/
structure TileState : Type where
  visible : Bool
  previouslyVisible : Bool
  hasAsset : Bool
  hasTexture : Bool
  pinned : Bool
  pinCount : ℕ
  deriving DecidableEq, Repr

/-- `TextureStore.prototype.query`: membership of the visible and
previously-visible sets, presence of asset and texture, and the pin count
(`pinned` iff the count is nonzero). -/
def TextureStore.query (hash : α → ℤ) (s : TextureStore α) (t : α) : TileState :=
  let item := alGet s.itemMap t
  let pinCount := (alGet s.pinMap t).getD 0
  { visible := SetModel.has hash s.visible t
    previouslyVisible := s.previouslyVisible.has t
    hasAsset := (item.map (·.hasAsset)).getD false
    hasTexture := (item.map (·.hasTexture)).getD false
    pinned := decide (pinCount ≠ 0)
    pinCount := pinCount }

/--
The loop of `TileSearcher.prototype.search` (`src/unnamed/part_014`,
`src/TileSearcher.js`): pop a tile off the stack; skip it if already visited;
skip it if not visible; otherwise mark it visited, push all of its neighbors,
append it to the result and increment the count. The JavaScript stack is an
array popped from its end; it is embedded as a list whose head is the top, so
pushing `neighbors[0], ..., neighbors[n-1]` in order leaves the stack
`neighbors.reverse ++ rest`. The visited collection is the bucket-hash `Set`
(`new Set()`, so capacity 64); the view's `intersects(tile.vertices())`
predicate and the tile's `neighbors()` method are the abstract parameters
`vis` and `nbrs` (View is an external collaborator, and `Tile#vertices` is
projection math outside the engine). The loop returns the final visited set
together with the result array and count. Termination: each iteration either
shortens the stack or enlarges the visited set, which is bounded because the
tile type is finite.
-/
def searchLoop [Fintype α] (hash : α → ℤ) (vis : α → Bool) (nbrs : α → List α) :
    List α → SetModel α → List α → ℕ → SetModel α × List α × ℕ
  | [], visited, result, count => (visited, result, count)
  | tile :: stack, visited, result, count =>
      if SetModel.has hash visited tile then
        searchLoop hash vis nbrs stack visited result count
      else if !vis tile then
        searchLoop hash vis nbrs stack visited result count
      else
        searchLoop hash vis nbrs ((nbrs tile).reverse ++ stack)
          (SetModel.add hash visited tile).1 (result ++ [tile]) (count + 1)
termination_by stack visited _ _ =>
  (Fintype.card α - (Finset.univ.filter (fun x => SetModel.has hash visited x)).card,
   stack.length)
decreasing_by
  · apply Prod.Lex.right
    simp
  · apply Prod.Lex.right
    simp
  · apply Prod.Lex.left
    rename_i hvisited _
    have h1 : ∀ x : α, SetModel.has hash visited x = true →
        SetModel.has hash (SetModel.add hash visited tile).1 x = true := by
      intro x hx
      simp only [SetModel.has, SetModel.add, decide_eq_true_eq] at hx ⊢
      split
      · exact hx
      · simp only [Function.update_apply]
        split
        · rename_i hidx
          rw [hidx] at hx
          exact List.mem_append_left _ hx
        · exact hx
    have h2 : SetModel.has hash (SetModel.add hash visited tile).1 tile = true := by
      simp only [SetModel.has, SetModel.add, decide_eq_true_eq] at hvisited ⊢
      split
      · rename_i hmem
        exact absurd hmem hvisited
      · simp [Function.update_apply]
    have hsub : (Finset.univ.filter (fun x => SetModel.has hash visited x)) ⊆
        Finset.univ.filter (fun x => SetModel.has hash (SetModel.add hash visited tile).1 x) := by
      intro x hx
      simp only [Finset.mem_filter, Finset.mem_univ, true_and] at hx ⊢
      exact h1 x hx
    have hss : (Finset.univ.filter (fun x => SetModel.has hash visited x)) ⊂
        Finset.univ.filter (fun x => SetModel.has hash (SetModel.add hash visited tile).1 x) := by
      refine (Finset.ssubset_iff_of_subset hsub).2 ⟨tile, ?_, ?_⟩
      · simp only [Finset.mem_filter, Finset.mem_univ, true_and]
        exact h2
      · simp only [Finset.mem_filter, Finset.mem_univ, true_and]
        exact hvisited
    have hlt := Finset.card_lt_card hss
    have hle : (Finset.univ.filter
        (fun x => SetModel.has hash (SetModel.add hash visited tile).1 x)).card ≤
        Fintype.card α := by
      simpa using Finset.card_filter_le Finset.univ
        (fun x => SetModel.has hash (SetModel.add hash visited tile).1 x)
    omega

/-- `TileSearcher.prototype.search`: clear the recycled stack and visited
buffers, push the starting tile, run the loop, clear again, and return the
result array (the caller's array with the visible tiles appended) and the
count of visible tiles found. The cleared visited buffer is the default
`Set` (capacity 64, all buckets empty). -/
def TileSearcher.search [Fintype α] (hash : α → ℤ) (vis : α → Bool) (nbrs : α → List α)
    (startingTile : α) (result : List α) : List α × ℕ :=
  let r := searchLoop hash vis nbrs [startingTile] (SetModel.mkDefault α) result 0
  (r.2.1, r.2.2)

/-- Reachability through a chain of visible tiles: the starting tile when
visible, and inductively any visible neighbor of a reachable tile. -/
inductive ReachVis (vis : α → Bool) (nbrs : α → List α) (start : α) : α → Prop
  | refl : vis start = true → ReachVis vis nbrs start start
  | step {t u : α} : ReachVis vis nbrs start t → u ∈ nbrs t → vis u = true →
      ReachVis vis nbrs start u

/-- A chain `t0, t1, ..., tk` in which every tile is visible and each
subsequent tile is a neighbor of its predecessor. -/
def VisibleChain (vis : α → Bool) (nbrs : α → List α) (c : List α) : Prop :=
  (∀ x ∈ c, vis x = true) ∧ c.Chain' (fun a b => b ∈ nbrs a)

/--
`FlatGeometry.prototype.visibleTiles` (`src/unnamed/part_013`; the
`CubeGeometry` version in `src/unnamed/part_014` is identical): with an empty
viewport no tiles are visible; otherwise run the tile search from
`_closestTile(view, level)` and throw `Error('Starting tile is not visible')`
when it finds no tiles. The `_closestTile` projection math is outside the
spec's scope and is abstracted as the `closestTile` argument.
-/
def visibleTiles [Fintype α] (hash : α → ℤ) (vis : α → Bool) (nbrs : α → List α)
    (viewWidth viewHeight : ℕ) (closestTile : α) (result : List α) :
    Except JsErr (List α) :=
  if viewWidth = 0 ∨ viewHeight = 0 then .ok result
  else
    let r := TileSearcher.search hash vis nbrs closestTile result
    if r.2 = 0 then .error .startingTileNotVisible
    else .ok r.1

/-- Modelled from the spec: `src/util/cmp.js` is not in the provided tree.
The standard three-way numeric comparator composed by the tiles' `cmp`
methods into the total order "by level, then face, then y, then x". -/
def cmpNum (a b : ℤ) : ℤ :=
  if a < b then -1 else if b < a then 1 else 0

/-- The JavaScript expression `a || b` on numbers as used by the tile `cmp`
methods: a nonzero comparison result short-circuits the rest. -/
def jsOrZ (a b : ℤ) : ℤ :=
  if a = 0 then b else a

/-- Modelled from the spec: `src/util/hash.js` is not in the provided tree.
The spec requires only "a stable hash derived from these fields"; this is a
deterministic fold of the field list, so equal field lists hash equally on
every call. -/
def hashFields (l : List ℤ) : ℤ :=
  l.foldl (fun h v => h * 31 + v) 0

/-- The six cube faces, in the order of `faceList = 'fudlrb'`
(`src/unnamed/part_014`). -/
inductive CubeFace : Type
  | f
  | u
  | d
  | l
  | r
  | b
  deriving DecidableEq, Repr

/-- `faceList.indexOf(face)`. -/
def CubeFace.index : CubeFace → ℤ
  | .f => 0
  | .u => 1
  | .d => 2
  | .l => 3
  | .r => 4
  | .b => 5

/-- A `CubeTile` (`src/unnamed/part_014`): face, grid coordinates `x`, `y`,
level index `z`, and the identity of the owning geometry instance (the
constructor stores `this._geometry = geometry`, and `equals` compares it with
`===`; reference identity is embedded as a numeric instance id). -/
structure CubeTileM : Type where
  face : CubeFace
  x : ℤ
  y : ℤ
  z : ℤ
  geometry : ℕ
  deriving DecidableEq, Repr

/-- `CubeTile.prototype.hash`: `hash(faceList.indexOf(this.face), this.z,
this.y, this.x)`. -/
def CubeTileM.hash (t : CubeTileM) : ℤ :=
  hashFields [t.face.index, t.z, t.y, t.x]

/-- `CubeTile.prototype.equals`: same geometry instance and identical face,
`z`, `y`, `x`. -/
def CubeTileM.equals (t u : CubeTileM) : Bool :=
  decide (t.geometry = u.geometry) && decide (t.face = u.face) &&
    decide (t.z = u.z) && decide (t.y = u.y) && decide (t.x = u.x)

/-- `CubeTile.prototype.cmp`: `cmp(z) || cmp(faceIndex) || cmp(y) || cmp(x)`. -/
def CubeTileM.cmp (t u : CubeTileM) : ℤ :=
  jsOrZ (cmpNum t.z u.z)
    (jsOrZ (cmpNum t.face.index u.face.index)
      (jsOrZ (cmpNum t.y u.y) (cmpNum t.x u.x)))

/-- A `FlatTile` (`src/unnamed/part_013`): grid coordinates `x`, `y`, level
index `z`, and the identity of the owning geometry instance. -/
structure FlatTileM : Type where
  x : ℤ
  y : ℤ
  z : ℤ
  geometry : ℕ
  deriving DecidableEq, Repr

/-- `FlatTile.prototype.hash`: `hash(this.z, this.y, this.x)`. -/
def FlatTileM.hash (t : FlatTileM) : ℤ :=
  hashFields [t.z, t.y, t.x]

/-- `FlatTile.prototype.equals`: same geometry instance and identical `z`,
`y`, `x`. -/
def FlatTileM.equals (t u : FlatTileM) : Bool :=
  decide (t.geometry = u.geometry) && decide (t.z = u.z) &&
    decide (t.y = u.y) && decide (t.x = u.x)

/-- `FlatTile.prototype.cmp`: `cmp(z) || cmp(y) || cmp(x)`. -/
def FlatTileM.cmp (t u : FlatTileM) : ℤ :=
  jsOrZ (cmpNum t.z u.z) (jsOrZ (cmpNum t.y u.y) (cmpNum t.x u.x))

/-- The error argument of the `TextureStoreItem` completion callback: a
`CancelError` or any other (genuine) failure. -/
inductive LoadErr : Type
  | cancelErr
  | failure
  deriving DecidableEq, Repr

/-- Notifications emitted by one `TextureStoreItem` for its own tile. -/
inductive ItemEvent : Type
  | startLoad
  | load
  | unload
  | invalid
  | cancelEv
  | errorEv
  deriving DecidableEq, Repr

/-- The observable outcome of the completion callback or of `destroy`:
emitted notifications, teardown of the partially-built asset and texture,
and which references the item retains. -/
structure ItemOutcome : Type where
  events : List ItemEvent
  assetDestroyed : Bool
  textureDestroyed : Bool
  assetRetained : Bool
  textureRetained : Bool
  cancelCleared : Bool
  deriving DecidableEq, Repr

/--
The completion callback installed by the `TextureStoreItem` constructor
(`src/src/TextureStore.js`, lines 113-164): it first nulls the cancel
handle; on an error it destroys whatever asset and texture were delivered and
emits `textureCancel` when the error is a `CancelError` and `textureError`
otherwise; on success it retains the texture, retains and subscribes a
dynamic asset (destroying a static one), and emits `textureLoad`.
-/
def itemCompletion (err : Option LoadErr) (assetArrived assetDynamic textureArrived : Bool) :
    ItemOutcome :=
  match err with
  | some e =>
      { events := [if e = .cancelErr then ItemEvent.cancelEv else ItemEvent.errorEv]
        assetDestroyed := assetArrived
        textureDestroyed := textureArrived
        assetRetained := false
        textureRetained := false
        cancelCleared := true }
  | none =>
      { events := [ItemEvent.load]
        assetDestroyed := !assetDynamic
        textureDestroyed := false
        assetRetained := assetDynamic
        textureRetained := true
        cancelCleared := true }

/-- The state a `TextureStoreItem` is in when `destroy` is called: whether
the load is still pending (`_cancel` non-null) and which references exist. -/
structure ItemLife : Type where
  cancelPending : Bool
  assetArrived : Bool
  assetDynamic : Bool
  textureArrived : Bool
  deriving DecidableEq, Repr

/--
`TextureStoreItem.prototype.destroy` (`src/src/TextureStore.js`, lines
175-207): if the load is still pending, invoke the cancel handle with `new
CancelError('Texture load cancelled')` and return — the cancel handle of the
`chain(retry(loadAsset), createTexture)` pipeline delivers that error to the
pending completion callback (`util/chain.js`/`util/retry.js` are not in the
provided tree; this delivery is modelled from the spec: "Destroying an item
mid-load invokes its cancellation handle instead of waiting", and the retry
policy "retries on ordinary failures but not on cancellation"). Otherwise
release the asset (and its change listener) and the texture, and emit
`textureUnload`.
-/
def itemDestroy (it : ItemLife) : ItemOutcome :=
  if it.cancelPending then
    itemCompletion (some .cancelErr) it.assetArrived it.assetDynamic it.textureArrived
  else
    { events := [ItemEvent.unload]
      assetDestroyed := it.assetArrived
      textureDestroyed := it.textureArrived
      assetRetained := false
      textureRetained := false
      cancelCleared := true }

/-- The identity hash used when the engine is evaluated over `ℕ` tiles. -/
def natHash : ℕ → ℤ := fun n => n

/-- Tiles without `width`/`height` properties (as `CubeTile`), so the
texture-memory estimate falls back to its 512 defaults. -/
def noDims : ℕ → Option ℚ := fun _ => none

/-- One complete frame cycle `startFrame(); markTile(7); endFrame()` driven
on a fresh store over `ℕ` tiles, evaluating the engine at a concrete input. -/
def frameCycleRun : TextureStore ℕ × Option JsErr :=
  let r1 := TextureStore.startFrame (TextureStore.mk' ℕ defaultOptions)
  let r2 := TextureStore.markTile natHash r1.1 7
  TextureStore.endFrame natHash noDims noDims r2.1

/-- A store state over budget: two cached tiles `0` and `1` with loaded
textures and 100 tracked bytes each, neither pinned nor in the visible set,
last accessed at times 1 and 2, with 150 bytes of current usage against a
100-byte maximum. -/
def overBudgetStore : TextureStore ℕ :=
  { TextureStore.mk' ℕ defaultOptions with
      itemMap := [(0, { loading := false, hasAsset := false, hasTexture := true }),
                  (1, { loading := false, hasAsset := false, hasTexture := true })]
      tileMemoryMap := [(0, 100), (1, 100)]
      tileAccessMap := [(0, 1), (1, 2)]
      currentGpuMemory := 150
      maxGpuMemory := 100 }

end Marzipano

namespace Marzipano

/-! ## Helper lemmas about the embedded collections -/

/-- The default `Set` contains nothing. -/
theorem SetModel.has_mkDefault {α : Type} [DecidableEq α] (hash : α → ℤ) (x : α) :
    SetModel.has hash (SetModel.mkDefault α) x = false := by
  simp [SetModel.has, SetModel.mkDefault]

/-- Membership after `Set.prototype.add`: the added element and everything
previously present, nothing else. -/
theorem SetModel.has_add {α : Type} [DecidableEq α] (hash : α → ℤ) (s : SetModel α) (x y : α) :
    SetModel.has hash (SetModel.add hash s x).1 y = true ↔
      (y = x ∨ SetModel.has hash s y = true) := by
  simp only [SetModel.has, SetModel.add, decide_eq_true_eq]
  split
  · rename_i hmem
    constructor
    · exact fun h => Or.inr h
    · rintro (rfl | h)
      · exact hmem
      · exact h
  · rename_i hmem
    simp only [Function.update_apply]
    by_cases hb : jsMod (hash y) s.capacity = jsMod (hash x) s.capacity
    · rw [if_pos hb, hb]
      simp only [List.mem_append, List.mem_singleton]
      constructor
      · rintro (h | rfl)
        · exact Or.inr h
        · exact Or.inl rfl
      · rintro (rfl | h)
        · exact Or.inr rfl
        · exact Or.inl h
    · rw [if_neg hb]
      constructor
      · exact fun h => Or.inr h
      · rintro (rfl | h)
        · exact absurd rfl hb
        · exact h

/-- `alGet` after `alSet` at the same key. -/
theorem alGet_alSet_self {α β : Type} [DecidableEq α] (m : AList α β) (k : α) (v : β) :
    alGet (alSet m k v) k = some v := by
  induction m with
  | nil => simp [alGet, alSet]
  | cons p rest ih =>
      by_cases h : p.1 = k
      · simp [alSet, alGet, h]
      · simp [alSet, alGet, h, ih]

/-- `alGet` after `alSet` at a different key. -/
theorem alGet_alSet_ne {α β : Type} [DecidableEq α] (m : AList α β) (k k' : α) (v : β)
    (h : k ≠ k') : alGet (alSet m k v) k' = alGet m k' := by
  induction m with
  | nil => simp [alGet, alSet, h]
  | cons p rest ih =>
      by_cases hp : p.1 = k
      · simp [alSet, alGet, hp, h]
      · by_cases hp' : p.1 = k'
        · simp [alSet, alGet, hp, hp', Ne.symm h]
        · simp [alSet, alGet, hp, hp', ih]

/-- `alGet` after `alDel` at the deleted key. -/
theorem alGet_alDel_self {α β : Type} [DecidableEq α] (m : AList α β) (k : α) :
    alGet (alDel m k) k = none := by
  induction m with
  | nil => simp [alGet, alDel]
  | cons p rest ih =>
      by_cases h : p.1 = k
      · simp [alDel, h, ih]
      · simp [alDel, alGet, h, ih]

end Marzipano

namespace Marzipano

/-! ## C8: frame-protocol guards -/

/-- C8: every frame-protocol call made outside its allowed state set throws
(`TextureStore: ... called out of sequence`) and leaves the store unchanged:
`startFrame` unless IDLE or START, `markTile` unless START or MARK, and
`endFrame` unless START, MARK or END. -/
theorem textureStore_protocol_guards {α : Type} [DecidableEq α] (hash : α → ℤ)
    (widthOf heightOf : α → Option ℚ) (s : TextureStore α) (t : α) :
    (¬(s.state = .IDLE ∨ s.state = .START) →
        TextureStore.startFrame s = (s, some JsErr.sequence)) ∧
    (¬(s.state = .START ∨ s.state = .MARK) →
        TextureStore.markTile hash s t = (s, some JsErr.sequence)) ∧
    (¬(s.state = .START ∨ s.state = .MARK ∨ s.state = .END) →
        TextureStore.endFrame hash widthOf heightOf s = (s, some JsErr.sequence)) := by
  refine ⟨fun h => ?_, fun h => ?_, fun h => ?_⟩
  · rw [TextureStore.startFrame, if_neg h]
  · rw [TextureStore.markTile, if_neg h]
  · rw [TextureStore.endFrame, if_neg h]

/-- Witness for C8 at concrete inputs: a fresh store is IDLE, so `markTile`
and `endFrame` throw on it; a store in the MARK state rejects `startFrame`. -/
theorem textureStore_protocol_guards_witness :
    TextureStore.markTile natHash (TextureStore.mk' ℕ defaultOptions) 0 =
      (TextureStore.mk' ℕ defaultOptions, some JsErr.sequence) ∧
    TextureStore.endFrame natHash noDims noDims (TextureStore.mk' ℕ defaultOptions) =
      (TextureStore.mk' ℕ defaultOptions, some JsErr.sequence) ∧
    TextureStore.startFrame { TextureStore.mk' ℕ defaultOptions with state := .MARK } =
      ({ TextureStore.mk' ℕ defaultOptions with state := .MARK }, some JsErr.sequence) :=
  ⟨(textureStore_protocol_guards natHash noDims noDims (TextureStore.mk' ℕ defaultOptions)
      0).2.1 (by simp [TextureStore.mk']),
   (textureStore_protocol_guards natHash noDims noDims (TextureStore.mk' ℕ defaultOptions)
      0).2.2 (by simp [TextureStore.mk']),
   (textureStore_protocol_guards natHash noDims noDims
      { TextureStore.mk' ℕ defaultOptions with state := .MARK } 0).1 (by simp [TextureStore.mk'])⟩

/-! ## C4: the broken `Set.prototype.forEach` -/

/-- C4: the `Set` constructor ignores its capacity argument and always yields
capacity 64; on any set of positive capacity `forEach` never returns normally
(with a non-throwing callback it throws the `TypeError` caused by
incrementing its `const` counters during the first bucket scan); consequently
the `TextureStore` update algorithm, whose first step iterates the visible
set with `forEach`, always throws. -/
theorem setModel_forEach_throws {α σ : Type} [DecidableEq α] :
    (∀ (cap : Option ℤ) (s : SetModel α), SetModel.new α cap = .ok s → s.capacity = 64) ∧
    (∀ (s : SetModel α) (st : σ) (fn : σ → α → σ × Option JsErr), 1 ≤ s.capacity →
        ∃ e, (SetModel.forEachJS s st fn).2 = .error e) ∧
    (∀ (s : SetModel α) (st : σ) (fn : σ → α → σ × Option JsErr), 1 ≤ s.capacity →
        (∀ st' x, (fn st' x).2 = none) →
        ∃ st2, SetModel.forEachJS s st fn = (st2, .error JsErr.typeError)) ∧
    (∀ (hash : α → ℤ) (widthOf heightOf : α → Option ℚ) (s : TextureStore α),
        1 ≤ s.visible.capacity →
        (TextureStore.update hash widthOf heightOf s).2 = some JsErr.typeError) := by
  have h3 : ∀ (σ' : Type) (s : SetModel α) (st : σ') (fn : σ' → α → σ' × Option JsErr),
      1 ≤ s.capacity → (∀ st' x, (fn st' x).2 = none) →
      ∃ st2, SetModel.forEachJS s st fn = (st2, .error JsErr.typeError) := by
    intro σ' s st fn hcap hfn
    rw [SetModel.forEachJS, if_pos (by omega : 0 < s.capacity)]
    cases hb : s.buckets 0 with
    | nil => exact ⟨st, rfl⟩
    | cons b rest =>
        have hpure := hfn st b
        cases hfb : fn st b with
        | mk st' e =>
            cases e with
            | none => exact ⟨st', by simp [hfb]⟩
            | some err => rw [hfb] at hpure; simp at hpure
  refine ⟨?_, ?_, h3 σ, ?_⟩
  · intro cap s h
    cases cap with
    | none =>
        rw [SetModel.new] at h
        cases h
        rfl
    | some c =>
        rw [SetModel.new] at h
        split at h
        · cases h
        · cases h
          rfl
  · intro s st fn hcap
    rw [SetModel.forEachJS, if_pos (by omega : 0 < s.capacity)]
    cases hb : s.buckets 0 with
    | nil => exact ⟨.typeError, rfl⟩
    | cons b rest =>
        cases hfb : fn st b with
        | mk st' e =>
            cases e with
            | none => exact ⟨.typeError, by simp [hfb]⟩
            | some err => exact ⟨err, by simp [hfb]⟩
  · intro hash widthOf heightOf s hcap
    simp only [TextureStore.update]
    obtain ⟨st2, h2⟩ := h3 (TextureStore α) s.visible { s with noLongerVisible := ([] : List α) }
      (fun st t =>
        (if SetModel.has hash st.newVisible t then st
         else { st with noLongerVisible := st.noLongerVisible ++ [t] }, none))
      hcap (fun _ _ => rfl)
    rw [h2]
    rfl

/-- Witness for C4: the constructor run with `null` and with capacity 5 both
yield capacity 64, and `forEach` on a freshly-constructed empty set throws
the `TypeError`; the update algorithm on a fresh store throws it as well. -/
theorem setModel_forEach_throws_witness :
    SetModel.new ℕ none = .ok (SetModel.mkDefault ℕ) ∧
    (∃ st2, SetModel.forEachJS (SetModel.mkDefault ℕ) (0 : ℕ)
        (fun st _ => (st + 1, none)) = (st2, .error JsErr.typeError)) ∧
    (TextureStore.update natHash noDims noDims (TextureStore.mk' ℕ defaultOptions)).2 =
      some JsErr.typeError :=
  ⟨rfl,
   (setModel_forEach_throws (α := ℕ) (σ := ℕ)).2.2.1 (SetModel.mkDefault ℕ) 0
      (fun st _ => (st + 1, none)) (by decide) (fun _ _ => rfl),
   (setModel_forEach_throws (α := ℕ) (σ := ℕ)).2.2.2 natHash noDims noDims
      (TextureStore.mk' ℕ defaultOptions) (by decide)⟩

/-! ## C1 and C5: the frame cycle at a concrete input -/

/-- C1 (code evaluated at the failing input): on a fresh store,
`startFrame(); markTile(7); endFrame()` does not run the update algorithm to
completion and does not return to IDLE — the final `endFrame` propagates the
`TypeError` thrown by `Set.prototype.forEach` in the first step of
`_update`, the store is left in the END state, and `query(7).visible` is
still false. -/
theorem textureStore_frameCycle_typeError :
    frameCycleRun.2 = some JsErr.typeError ∧
    frameCycleRun.1.state = StState.END ∧
    (TextureStore.query natHash frameCycleRun.1 7).visible = false := by
  decide

/-- C5 (code evaluated at the failing input): in the three-frame
mark/unmark/remark scenario the very first frame already fails — no
`textureStartLoad` is ever emitted (the event log of the completed cycle is
empty, so tile 7 never starts loading, let alone reaches
`previouslyVisible`), and the store is stuck: the `startFrame` opening frame
N+1 throws `startFrame called out of sequence`. -/
theorem textureStore_revisit_noLoad_blocked :
    frameCycleRun.1.events = [] ∧
    (TextureStore.startFrame frameCycleRun.1).2 = some JsErr.sequence := by
  decide

/-! ## C3: budget eviction at a concrete input -/

/-- C3 (code evaluated at the failing input): on `overBudgetStore`
(150 bytes used, 100 allowed, two eviction candidates of 100 bytes each,
oldest first), `_evictToMeetBudget` appends *both* candidates to the evicted
list, even though the running total after the first candidate,
`150 - 100 = 50`, is already under the 100-byte budget — the loop's stopping
condition reads `_currentGpuMemory`, which nothing in the loop updates. -/
theorem evictToMeetBudget_overshoots :
    (TextureStore.evictToMeetBudget natHash overBudgetStore).evicted = [0, 1] ∧
    overBudgetStore.currentGpuMemory - ((alGet overBudgetStore.tileMemoryMap 0).getD 0) ≤
      overBudgetStore.maxGpuMemory := by
  constructor
  · decide
  · norm_num [overBudgetStore, alGet]

/-! ## C7: cancellation versus genuine failure -/

/-- C7: destroying an item whose load is still in flight (`_cancel` non-null)
invokes the cancel handle with a `CancelError`, whose delivery to the
completion callback emits exactly a `textureCancel` notification and never
`textureError`; a genuine (non-`CancelError`) load failure emits exactly
`textureError` and never `textureCancel`. -/
theorem textureStoreItem_cancel_vs_error (it : ItemLife) (e : LoadErr)
    (aArr aDyn tArr : Bool) :
    (it.cancelPending = true →
        itemDestroy it =
          itemCompletion (some .cancelErr) it.assetArrived it.assetDynamic it.textureArrived ∧
        (itemDestroy it).events = [ItemEvent.cancelEv] ∧
        ItemEvent.errorEv ∉ (itemDestroy it).events) ∧
    (e ≠ .cancelErr →
        (itemCompletion (some e) aArr aDyn tArr).events = [ItemEvent.errorEv] ∧
        ItemEvent.cancelEv ∉ (itemCompletion (some e) aArr aDyn tArr).events) := by
  constructor
  · intro h
    refine ⟨by rw [itemDestroy, if_pos h], ?_, ?_⟩
    · simp [itemDestroy, h, itemCompletion]
    · simp [itemDestroy, h, itemCompletion]
  · intro h
    cases e with
    | cancelErr => exact absurd rfl h
    | failure => exact ⟨by simp [itemCompletion], by simp [itemCompletion]⟩

/-- Witness for C7: a concrete mid-flight destroy (pending cancel handle,
partially delivered asset) emits exactly `textureCancel`, and a concrete
genuine failure emits exactly `textureError`. -/
theorem textureStoreItem_cancel_vs_error_witness :
    (itemDestroy { cancelPending := true, assetArrived := true, assetDynamic := false,
                   textureArrived := false }).events = [ItemEvent.cancelEv] ∧
    (itemCompletion (some .failure) false false true).events = [ItemEvent.errorEv] :=
  ⟨((textureStoreItem_cancel_vs_error
      { cancelPending := true, assetArrived := true, assetDynamic := false,
        textureArrived := false } .failure false false true).1 rfl).2.1,
   ((textureStoreItem_cancel_vs_error
      { cancelPending := true, assetArrived := true, assetDynamic := false,
        textureArrived := false } .failure false false true).2 (by decide)).1⟩

/-! ## C10: tile equality, hash stability and total order -/

/-- `cmpNum` returns zero exactly on equal arguments. -/
theorem cmpNum_eq_zero_iff (a b : ℤ) : cmpNum a b = 0 ↔ a = b := by
  unfold cmpNum
  split_ifs <;> (try simp only [false_iff, iff_false, true_iff, iff_true]) <;> omega

/-- `cmpNum` is negative exactly when the first argument is smaller. -/
theorem cmpNum_neg_iff (a b : ℤ) : cmpNum a b < 0 ↔ a < b := by
  unfold cmpNum
  split_ifs <;> (try simp only [false_iff, iff_false, true_iff, iff_true]) <;> omega

/-- Negating `cmpNum` swaps its arguments. -/
theorem cmpNum_mirror (a b : ℤ) : - cmpNum a b = cmpNum b a := by
  unfold cmpNum
  split_ifs <;> omega

/-- `a || b` on comparison results is zero iff both are. -/
theorem jsOrZ_eq_zero_iff (a b : ℤ) : jsOrZ a b = 0 ↔ (a = 0 ∧ b = 0) := by
  unfold jsOrZ
  split_ifs <;> (try simp only [false_iff, iff_false, true_iff, iff_true]) <;> omega

/-- `a || b` on comparison results is negative iff `a` is, or `a` is zero and
`b` is negative. -/
theorem jsOrZ_neg_iff (a b : ℤ) : jsOrZ a b < 0 ↔ (a < 0 ∨ (a = 0 ∧ b < 0)) := by
  unfold jsOrZ
  split_ifs <;> (try simp only [false_iff, iff_false, true_iff, iff_true]) <;> omega

/-- Negation distributes over `a || b` on comparison results. -/
theorem jsOrZ_mirror (a b : ℤ) : - jsOrZ a b = jsOrZ (-a) (-b) := by
  unfold jsOrZ
  split_ifs <;> omega

/-- The lexicographic behaviour of the composed comparator
`cmp(a) || cmp(b) || cmp(c) || cmp(d)`. -/
theorem lexCmp4 (a1 a2 b1 b2 c1 c2 d1 d2 : ℤ) :
    (jsOrZ (cmpNum a1 a2) (jsOrZ (cmpNum b1 b2) (jsOrZ (cmpNum c1 c2) (cmpNum d1 d2))) = 0 ↔
      (a1 = a2 ∧ b1 = b2 ∧ c1 = c2 ∧ d1 = d2)) ∧
    (jsOrZ (cmpNum a1 a2) (jsOrZ (cmpNum b1 b2) (jsOrZ (cmpNum c1 c2) (cmpNum d1 d2))) < 0 ↔
      (a1 < a2 ∨ (a1 = a2 ∧ (b1 < b2 ∨ (b1 = b2 ∧ (c1 < c2 ∨ (c1 = c2 ∧ d1 < d2))))))) ∧
    jsOrZ (cmpNum a1 a2) (jsOrZ (cmpNum b1 b2) (jsOrZ (cmpNum c1 c2) (cmpNum d1 d2))) =
      - jsOrZ (cmpNum a2 a1) (jsOrZ (cmpNum b2 b1) (jsOrZ (cmpNum c2 c1) (cmpNum d2 d1))) := by
  refine ⟨?_, ?_, ?_⟩
  · simp only [jsOrZ_eq_zero_iff, cmpNum_eq_zero_iff]
  · simp only [jsOrZ_neg_iff, jsOrZ_eq_zero_iff, cmpNum_neg_iff, cmpNum_eq_zero_iff]
  · rw [jsOrZ_mirror, jsOrZ_mirror, jsOrZ_mirror, cmpNum_mirror, cmpNum_mirror,
      cmpNum_mirror, cmpNum_mirror]

/-- The three-argument comparator of `FlatTile.prototype.cmp`. -/
theorem lexCmp3 (a1 a2 b1 b2 c1 c2 : ℤ) :
    (jsOrZ (cmpNum a1 a2) (jsOrZ (cmpNum b1 b2) (cmpNum c1 c2)) = 0 ↔
      (a1 = a2 ∧ b1 = b2 ∧ c1 = c2)) ∧
    (jsOrZ (cmpNum a1 a2) (jsOrZ (cmpNum b1 b2) (cmpNum c1 c2)) < 0 ↔
      (a1 < a2 ∨ (a1 = a2 ∧ (b1 < b2 ∨ (b1 = b2 ∧ c1 < c2))))) ∧
    jsOrZ (cmpNum a1 a2) (jsOrZ (cmpNum b1 b2) (cmpNum c1 c2)) =
      - jsOrZ (cmpNum a2 a1) (jsOrZ (cmpNum b2 b1) (cmpNum c2 c1)) := by
  refine ⟨?_, ?_, ?_⟩
  · simp only [jsOrZ_eq_zero_iff, cmpNum_eq_zero_iff]
  · simp only [jsOrZ_neg_iff, jsOrZ_eq_zero_iff, cmpNum_neg_iff, cmpNum_eq_zero_iff]
  · rw [jsOrZ_mirror, jsOrZ_mirror, cmpNum_mirror, cmpNum_mirror, cmpNum_mirror]

/-- `faceList.indexOf` is injective on the six faces. -/
theorem CubeFace.index_inj (c1 c2 : CubeFace) : c1.index = c2.index ↔ c1 = c2 := by
  cases c1 <;> cases c2 <;> simp [CubeFace.index]

/-- C10: `equals` holds exactly on same-geometry tiles with identical
coordinates (hence is reflexive); `hash` is a function of those coordinates
alone, hence stable across calls; `cmp` compares lexicographically by level,
then face (in `faceList` order), then `y`, then `x`, giving a reflexive,
antisymmetric, transitive and total comparison — for `CubeTile` and
`FlatTile` alike. -/
theorem tile_equals_hash_cmp_spec (t u v : CubeTileM) (p q r : FlatTileM) :
    (t.equals u = true ↔
        (t.geometry = u.geometry ∧ t.face = u.face ∧ t.z = u.z ∧ t.y = u.y ∧ t.x = u.x)) ∧
    t.equals t = true ∧
    (t.face = u.face → t.z = u.z → t.y = u.y → t.x = u.x → t.hash = u.hash) ∧
    (t.cmp u = 0 ↔ (t.z = u.z ∧ t.face = u.face ∧ t.y = u.y ∧ t.x = u.x)) ∧
    (t.cmp u < 0 ↔ (t.z < u.z ∨ (t.z = u.z ∧ (t.face.index < u.face.index ∨
        (t.face = u.face ∧ (t.y < u.y ∨ (t.y = u.y ∧ t.x < u.x))))))) ∧
    t.cmp u = - u.cmp t ∧
    (t.cmp u ≤ 0 → u.cmp v ≤ 0 → t.cmp v ≤ 0) ∧
    (t.cmp u ≤ 0 ∨ u.cmp t ≤ 0) ∧
    (t.cmp u = 0 → t.geometry = u.geometry → t = u) ∧
    (p.equals q = true ↔ (p.geometry = q.geometry ∧ p.z = q.z ∧ p.y = q.y ∧ p.x = q.x)) ∧
    p.equals p = true ∧
    (p.z = q.z → p.y = q.y → p.x = q.x → p.hash = q.hash) ∧
    (p.cmp q = 0 ↔ (p.z = q.z ∧ p.y = q.y ∧ p.x = q.x)) ∧
    (p.cmp q < 0 ↔ (p.z < q.z ∨ (p.z = q.z ∧ (p.y < q.y ∨ (p.y = q.y ∧ p.x < q.x))))) ∧
    p.cmp q = - q.cmp p ∧
    (p.cmp q ≤ 0 → q.cmp r ≤ 0 → p.cmp r ≤ 0) ∧
    (p.cmp q ≤ 0 ∨ q.cmp p ≤ 0) ∧
    (p.cmp q = 0 → p.geometry = q.geometry → p = q) := by
  have htu := lexCmp4 t.z u.z t.face.index u.face.index t.y u.y t.x u.x
  have huv := lexCmp4 u.z v.z u.face.index v.face.index u.y v.y u.x v.x
  have htv := lexCmp4 t.z v.z t.face.index v.face.index t.y v.y t.x v.x
  have hpq := lexCmp3 p.z q.z p.y q.y p.x q.x
  have hqr := lexCmp3 q.z r.z q.y r.y q.x r.x
  have hpr := lexCmp3 p.z r.z p.y r.y p.x r.x
  simp only [CubeTileM.cmp, FlatTileM.cmp] at htu huv htv hpq hqr hpr ⊢
  have hfi := CubeFace.index_inj t.face u.face
  refine ⟨?_, ?_, ?_, ?_, ?_, ?_, ?_, ?_, ?_, ?_, ?_, ?_, ?_, ?_, ?_, ?_, ?_, ?_⟩
  · simp [CubeTileM.equals, and_assoc]
  · simp [CubeTileM.equals]
  · intro hf hz hy hx
    simp [CubeTileM.hash, hf, hz, hy, hx]
  · rw [htu.1, ← hfi]
  · rw [htu.2.1, ← hfi]
  · exact htu.2.2
  · intro h1 h2
    have e1 : t.cmp u < 0 ∨ t.cmp u = 0 := by
      simp only [CubeTileM.cmp] at h1 ⊢
      omega
    have e2 : u.cmp v < 0 ∨ u.cmp v = 0 := by
      simp only [CubeTileM.cmp] at h2 ⊢
      omega
    simp only [CubeTileM.cmp] at e1 e2
    rw [htu.2.1, htu.1] at e1
    rw [huv.2.1, huv.1] at e2
    have : (t.z < v.z ∨ (t.z = v.z ∧ (t.face.index < v.face.index ∨
        (t.face.index = v.face.index ∧ (t.y < v.y ∨ (t.y = v.y ∧ t.x < v.x)))))) ∨
        (t.z = v.z ∧ t.face.index = v.face.index ∧ t.y = v.y ∧ t.x = v.x) := by
      omega
    rcases this with h | h
    · have := htv.2.1.2 (by omega)
      omega
    · have := htv.1.2 h
      omega
  · have := htu.2.2
    omega
  · intro h0 hg
    have h4 := htu.1.1 h0
    have hf : t.face = u.face := hfi.1 h4.2.1
    cases t
    cases u
    simp_all
  · simp [FlatTileM.equals, and_assoc]
  · simp [FlatTileM.equals]
  · intro hz hy hx
    simp [FlatTileM.hash, hz, hy, hx]
  · exact hpq.1
  · exact hpq.2.1
  · exact hpq.2.2
  · intro h1 h2
    have e1 : jsOrZ (cmpNum p.z q.z) (jsOrZ (cmpNum p.y q.y) (cmpNum p.x q.x)) < 0 ∨
        jsOrZ (cmpNum p.z q.z) (jsOrZ (cmpNum p.y q.y) (cmpNum p.x q.x)) = 0 := by omega
    have e2 : jsOrZ (cmpNum q.z r.z) (jsOrZ (cmpNum q.y r.y) (cmpNum q.x r.x)) < 0 ∨
        jsOrZ (cmpNum q.z r.z) (jsOrZ (cmpNum q.y r.y) (cmpNum q.x r.x)) = 0 := by omega
    rw [hpq.2.1, hpq.1] at e1
    rw [hqr.2.1, hqr.1] at e2
    have : (p.z < r.z ∨ (p.z = r.z ∧ (p.y < r.y ∨ (p.y = r.y ∧ p.x < r.x)))) ∨
        (p.z = r.z ∧ p.y = r.y ∧ p.x = r.x) := by omega
    rcases this with h | h
    · have := hpr.2.1.2 h
      omega
    · have := hpr.1.2 h
      omega
  · have := hpq.2.2
    omega
  · intro h0 hg
    have h3 := hpq.1.1 h0
    cases p
    cases q
    simp_all

/-- Witness for C10 at concrete tiles: two equal-coordinate cube tiles of the
same geometry are `equals` and `cmp`-antisymmetry identifies them; a pair of
flat tiles ordered by level compares negative. -/
theorem tile_equals_hash_cmp_spec_witness :
    ({ face := .f, x := 1, y := 2, z := 0, geometry := 0 } : CubeTileM) =
      ({ face := .f, x := 1, y := 2, z := 0, geometry := 0 } : CubeTileM) ∧
    (({ x := 3, y := 0, z := 0, geometry := 0 } : FlatTileM).cmp
        { x := 0, y := 0, z := 1, geometry := 0 } < 0) :=
  ⟨(tile_equals_hash_cmp_spec
      { face := .f, x := 1, y := 2, z := 0, geometry := 0 }
      { face := .f, x := 1, y := 2, z := 0, geometry := 0 }
      { face := .f, x := 1, y := 2, z := 0, geometry := 0 }
      { x := 3, y := 0, z := 0, geometry := 0 }
      { x := 0, y := 0, z := 1, geometry := 0 }
      { x := 0, y := 0, z := 1, geometry := 0 }).2.2.2.2.2.2.2.2.1 (by decide) rfl,
   (tile_equals_hash_cmp_spec
      { face := .f, x := 1, y := 2, z := 0, geometry := 0 }
      { face := .f, x := 1, y := 2, z := 0, geometry := 0 }
      { face := .f, x := 1, y := 2, z := 0, geometry := 0 }
      { x := 3, y := 0, z := 0, geometry := 0 }
      { x := 0, y := 0, z := 1, geometry := 0 }
      { x := 0, y := 0, z := 1,
        geometry := 0 }).2.2.2.2.2.2.2.2.2.2.2.2.2.1.2 (by decide)⟩

/-! ## C6: reference-counted pinning -/

/-- What `TextureStore.prototype.pin` does in either branch of its item
check: the pin map gains the incremented count (which is also returned, with
no exception), and the tile has a cached item afterwards. -/
theorem pin_parts {α : Type} [DecidableEq α] (widthOf heightOf : α → Option ℚ)
    (s : TextureStore α) (t : α) :
    (TextureStore.pin widthOf heightOf s t).1.pinMap =
      alSet s.pinMap t ((alGet s.pinMap t).getD 0 + 1) ∧
    (TextureStore.pin widthOf heightOf s t).2.1 = (alGet s.pinMap t).getD 0 + 1 ∧
    (TextureStore.pin widthOf heightOf s t).2.2 = none ∧
    alHas (TextureStore.pin widthOf heightOf s t).1.itemMap t = true := by
  by_cases hitem : alHas s.itemMap t = true
  · have hg : (alGet s.itemMap t).isSome = true := hitem
    refine ⟨?_, ?_, ?_, ?_⟩ <;> simp [TextureStore.pin, TextureStore.loadTile, hitem, hg]
  · have hitem' : alHas s.itemMap t = false := by simpa using hitem
    have hg : (alGet s.itemMap t).isSome = false := hitem'
    refine ⟨?_, ?_, ?_, ?_⟩ <;>
      simp [TextureStore.pin, TextureStore.loadTile, hitem', hg, alHas, alGet_alSet_self]

/-- C6: `pin` increments the tile's reference count, returning and recording
the new count, and loads the tile immediately — with no visibility condition
— exactly when it has no cached item (emitting `textureStartLoad`); `unpin`
throws on an unpinned tile, otherwise decrements and returns the count,
keeping the entry while positive, and at zero removes the pin and unloads the
tile iff it is in neither the visible nor the previously-visible set; two
pins followed by one unpin leave `query(tile).pinned` true. -/
theorem textureStore_pin_unpin_spec {α : Type} [DecidableEq α] (hash : α → ℤ)
    (widthOf heightOf : α → Option ℚ) (s : TextureStore α) (t : α) :
    ((TextureStore.pin widthOf heightOf s t).2.1 = (alGet s.pinMap t).getD 0 + 1 ∧
     (TextureStore.pin widthOf heightOf s t).2.2 = none ∧
     alGet (TextureStore.pin widthOf heightOf s t).1.pinMap t =
       some ((alGet s.pinMap t).getD 0 + 1)) ∧
    (alHas s.itemMap t = false →
        alHas (TextureStore.pin widthOf heightOf s t).1.itemMap t = true ∧
        (TextureStore.pin widthOf heightOf s t).1.events =
          s.events ++ [TexEvent.startLoad t]) ∧
    (alHas s.itemMap t = true →
        (TextureStore.pin widthOf heightOf s t).1.itemMap = s.itemMap ∧
        (TextureStore.pin widthOf heightOf s t).1.events = s.events) ∧
    ((alGet s.pinMap t).getD 0 = 0 →
        TextureStore.unpin hash s t = (s, 0, some JsErr.unpinNotPinned)) ∧
    (∀ n, alGet s.pinMap t = some (n + 1) → 0 < n →
        TextureStore.unpin hash s t =
          ({ s with pinMap := alSet s.pinMap t n }, n, none)) ∧
    (alGet s.pinMap t = some 1 →
        alGet (TextureStore.unpin hash s t).1.pinMap t = none ∧
        (TextureStore.unpin hash s t).2.1 = 0 ∧
        (SetModel.has hash s.visible t = false → s.previouslyVisible.has t = false →
            alHas s.itemMap t = true →
            alGet (TextureStore.unpin hash s t).1.itemMap t = none ∧
            (TextureStore.unpin hash s t).2.2 = none) ∧
        ((SetModel.has hash s.visible t = true ∨ s.previouslyVisible.has t = true) →
            (TextureStore.unpin hash s t).1.itemMap = s.itemMap ∧
            (TextureStore.unpin hash s t).2.2 = none)) ∧
    (TextureStore.query hash
        (TextureStore.unpin hash
          (TextureStore.pin widthOf heightOf
            (TextureStore.pin widthOf heightOf s t).1 t).1 t).1 t).pinned = true := by
  obtain ⟨hp1, hp2, hp3, hp4⟩ := pin_parts widthOf heightOf s t
  refine ⟨⟨hp2, hp3, ?_⟩, ?_, ?_, ?_, ?_, ?_, ?_⟩
  · rw [hp1, alGet_alSet_self]
  · intro hitem
    constructor
    · exact hp4
    · simp [TextureStore.pin, TextureStore.loadTile, hitem]
  · intro hitem
    constructor <;> simp [TextureStore.pin, TextureStore.loadTile, hitem]
  · intro h0
    rw [TextureStore.unpin]
    simp [h0]
  · intro n hn hpos
    rw [TextureStore.unpin]
    simp [hn, Nat.succ_ne_zero, hpos]
  · intro h1
    have hd : (alGet s.pinMap t).getD 0 = 1 := by rw [h1]; rfl
    by_cases hvis : SetModel.has hash s.visible t = true
    · refine ⟨?_, ?_, ?_, ?_⟩
      · simp [TextureStore.unpin, hd, hvis, alGet_alDel_self]
      · simp [TextureStore.unpin, hd, hvis]
      · intro hv _ _
        rw [hv] at hvis
        simp at hvis
      · intro _
        constructor <;> simp [TextureStore.unpin, hd, hvis]
    · have hvis' : SetModel.has hash s.visible t = false := by simpa using hvis
      by_cases hprev : s.previouslyVisible.has t = true
      · refine ⟨?_, ?_, ?_, ?_⟩
        · simp [TextureStore.unpin, hd, hvis', hprev, alGet_alDel_self]
        · simp [TextureStore.unpin, hd, hvis', hprev]
        · intro _ hp _
          rw [hp] at hprev
          simp at hprev
        · intro _
          constructor <;> simp [TextureStore.unpin, hd, hvis', hprev]
      · have hprev' : s.previouslyVisible.has t = false := by simpa using hprev
        refine ⟨?_, ?_, ?_, ?_⟩
        · rcases hg : alGet s.itemMap t with _ | it
          · simp [TextureStore.unpin, TextureStore.unloadTile, hd, hvis', hprev', hg,
              alGet_alDel_self]
          · cases hl : it.loading <;>
              simp [TextureStore.unpin, TextureStore.unloadTile, hd, hvis', hprev', hg, hl,
                alGet_alDel_self]
        · rcases hg : alGet s.itemMap t with _ | it
          · simp [TextureStore.unpin, TextureStore.unloadTile, hd, hvis', hprev', hg]
          · cases hl : it.loading <;>
              simp [TextureStore.unpin, TextureStore.unloadTile, hd, hvis', hprev', hg, hl]
        · intro _ _ hitem
          obtain ⟨it, hg⟩ : ∃ it, alGet s.itemMap t = some it := by
            rcases hx : alGet s.itemMap t with _ | it
            · rw [alHas, hx] at hitem
              simp at hitem
            · exact ⟨it, rfl⟩
          cases hl : it.loading <;>
            simp [TextureStore.unpin, TextureStore.unloadTile, hd, hvis', hprev', hg, hl,
              alGet_alDel_self]
        · intro hvp0
          rcases hvp0 with h | h
          · rw [h] at hvis'
            simp at hvis'
          · rw [h] at hprev'
            simp at hprev'
  · obtain ⟨hq1, hq2, hq3, hq4⟩ :=
      pin_parts widthOf heightOf (TextureStore.pin widthOf heightOf s t).1 t
    have hg2 : alGet (TextureStore.pin widthOf heightOf
        (TextureStore.pin widthOf heightOf s t).1 t).1.pinMap t =
        some ((alGet s.pinMap t).getD 0 + 2) := by
      rw [hq1, alGet_alSet_self, hp1, alGet_alSet_self]
      rfl
    have e2 : (alGet s.pinMap t).getD 0 + 2 - 1 = (alGet s.pinMap t).getD 0 + 1 := by omega
    rw [TextureStore.unpin]
    simp [hg2, e2, TextureStore.query, alGet_alSet_self]

/-- Witness for C6: on a fresh store, unpinning the never-pinned tile 3
throws, and pinning it twice then unpinning once leaves it pinned. -/
theorem textureStore_pin_unpin_spec_witness :
    TextureStore.unpin natHash (TextureStore.mk' ℕ defaultOptions) 3 =
      (TextureStore.mk' ℕ defaultOptions, 0, some JsErr.unpinNotPinned) ∧
    (TextureStore.query natHash
        (TextureStore.unpin natHash
          (TextureStore.pin noDims noDims
            (TextureStore.pin noDims noDims (TextureStore.mk' ℕ defaultOptions) 3).1 3).1 3).1
        3).pinned = true :=
  ⟨(textureStore_pin_unpin_spec natHash noDims noDims
      (TextureStore.mk' ℕ defaultOptions) 3).2.2.2.1 (by decide),
   (textureStore_pin_unpin_spec natHash noDims noDims
      (TextureStore.mk' ℕ defaultOptions) 3).2.2.2.2.2.2⟩

/-! ## C2 and C9: the frontier search -/

/-- The search loop never forgets a visited tile. -/
theorem searchLoop_has_mono {α : Type} [DecidableEq α] [Fintype α] (hash : α → ℤ)
    (vis : α → Bool) (nbrs : α → List α)
    (stack : List α) (visited : SetModel α) (result : List α) (count : ℕ) (x : α) :
    SetModel.has hash visited x = true →
    SetModel.has hash (searchLoop hash vis nbrs stack visited result count).1 x = true := by
  induction stack, visited, result, count using searchLoop.induct hash vis nbrs with
  | case1 visited result count =>
      intro h
      simpa [searchLoop] using h
  | case2 tile stack visited result count hv ih =>
      intro h
      rw [searchLoop, if_pos hv]
      exact ih h
  | case3 tile stack visited result count hv hinvis ih =>
      intro h
      rw [searchLoop, if_neg hv, if_pos hinvis]
      exact ih h
  | case4 tile stack visited result count hv hvis ih =>
      intro h
      rw [searchLoop, if_neg hv, if_neg hvis]
      apply ih
      rw [SetModel.has_add]
      exact Or.inr h

/-- The search loop appends to the result exactly the tiles it newly visits,
each once, and counts them. -/
theorem searchLoop_delta {α : Type} [DecidableEq α] [Fintype α] (hash : α → ℤ)
    (vis : α → Bool) (nbrs : α → List α)
    (stack : List α) (visited : SetModel α) (result : List α) (count : ℕ) :
    ∃ app : List α,
      (searchLoop hash vis nbrs stack visited result count).2.1 = result ++ app ∧
      (searchLoop hash vis nbrs stack visited result count).2.2 = count + app.length ∧
      app.Nodup ∧
      (∀ x, x ∈ app ↔
        (SetModel.has hash (searchLoop hash vis nbrs stack visited result count).1 x = true ∧
         SetModel.has hash visited x = false)) := by
  induction stack, visited, result, count using searchLoop.induct hash vis nbrs with
  | case1 visited result count =>
      refine ⟨[], by simp [searchLoop], by simp [searchLoop], List.nodup_nil, ?_⟩
      intro x
      simp [searchLoop]
  | case2 tile stack visited result count hv ih =>
      rw [searchLoop, if_pos hv]
      exact ih
  | case3 tile stack visited result count hv hinvis ih =>
      rw [searchLoop, if_neg hv, if_pos hinvis]
      exact ih
  | case4 tile stack visited result count hv hvis ih =>
      rw [searchLoop, if_neg hv, if_neg hvis]
      obtain ⟨app, h1, h2, h3, h4⟩ := ih
      have hv' : SetModel.has hash visited tile = false := by simpa using hv
      have haddt : SetModel.has hash (SetModel.add hash visited tile).1 tile = true := by
        rw [SetModel.has_add]
        exact Or.inl rfl
      refine ⟨tile :: app, ?_, ?_, ?_, ?_⟩
      · rw [h1]
        simp
      · rw [h2, List.length_cons]
        omega
      · rw [List.nodup_cons]
        refine ⟨fun hmem => ?_, h3⟩
        have := ((h4 tile).1 hmem).2
        rw [haddt] at this
        cases this
      · intro x
        rw [List.mem_cons, h4 x]
        constructor
        · rintro (rfl | ⟨hfin, hnadd⟩)
          · exact ⟨searchLoop_has_mono hash vis nbrs _ _ _ _ x haddt, hv'⟩
          · refine ⟨hfin, ?_⟩
            cases hhv : SetModel.has hash visited x with
            | false => rfl
            | true =>
                have := (SetModel.has_add hash visited tile x).2 (Or.inr hhv)
                rw [this] at hnadd
                cases hnadd
        · rintro ⟨hfin, hnv⟩
          by_cases hx : x = tile
          · exact Or.inl hx
          · refine Or.inr ⟨hfin, ?_⟩
            cases hadd : SetModel.has hash (SetModel.add hash visited tile).1 x with
            | false => rfl
            | true =>
                rcases (SetModel.has_add hash visited tile x).1 hadd with rfl | hvx
                · exact absurd rfl hx
                · rw [hvx] at hnv
                  cases hnv

/-- Everything the search loop visits is visible and reachable from the
starting tile through a chain of visible neighbors, provided the initial
visited set and stack satisfy the same invariant. -/
theorem searchLoop_sound {α : Type} [DecidableEq α] [Fintype α] (hash : α → ℤ)
    (vis : α → Bool) (nbrs : α → List α) (start : α)
    (stack : List α) (visited : SetModel α) (result : List α) (count : ℕ) :
    (∀ x, SetModel.has hash visited x = true → vis x = true ∧ ReachVis vis nbrs start x) →
    (∀ y ∈ stack, y = start ∨ ∃ x, SetModel.has hash visited x = true ∧ y ∈ nbrs x) →
    ∀ x, SetModel.has hash (searchLoop hash vis nbrs stack visited result count).1 x = true →
      vis x = true ∧ ReachVis vis nbrs start x := by
  induction stack, visited, result, count using searchLoop.induct hash vis nbrs with
  | case1 visited result count =>
      intro hinv _ x hx
      simp only [searchLoop] at hx
      exact hinv x hx
  | case2 tile stack visited result count hv ih =>
      intro hinv hstack
      rw [searchLoop, if_pos hv]
      exact ih hinv (fun y hy => hstack y (List.mem_cons_of_mem _ hy))
  | case3 tile stack visited result count hv hinvis ih =>
      intro hinv hstack
      rw [searchLoop, if_neg hv, if_pos hinvis]
      exact ih hinv (fun y hy => hstack y (List.mem_cons_of_mem _ hy))
  | case4 tile stack visited result count hv hvis ih =>
      intro hinv hstack
      rw [searchLoop, if_neg hv, if_neg hvis]
      have hvt : vis tile = true := by simpa using hvis
      have hreach : ReachVis vis nbrs start tile := by
        rcases hstack tile (List.mem_cons_self tile stack) with rfl | ⟨x0, hx0, hmem⟩
        · exact ReachVis.refl hvt
        · exact ReachVis.step (hinv x0 hx0).2 hmem hvt
      apply ih
      · intro y hy
        rcases (SetModel.has_add hash visited tile y).1 hy with rfl | hvy
        · exact ⟨hvt, hreach⟩
        · exact hinv y hvy
      · intro y hy
        rcases List.mem_append.1 hy with hyn | hys
        · exact Or.inr ⟨tile, (SetModel.has_add hash visited tile tile).2 (Or.inl rfl),
            List.mem_reverse.1 hyn⟩
        · rcases hstack y (List.mem_cons_of_mem _ hys) with rfl | ⟨x0, hx0, hmem⟩
          · exact Or.inl rfl
          · exact Or.inr ⟨x0, (SetModel.has_add hash visited tile x0).2 (Or.inr hx0), hmem⟩

/-- When the loop finishes, the visible starting tile has been visited and
the visited set is closed under visible neighbors, provided the initial
stack covers the pending obligations. -/
theorem searchLoop_closure {α : Type} [DecidableEq α] [Fintype α] (hash : α → ℤ)
    (vis : α → Bool) (nbrs : α → List α) (start : α)
    (stack : List α) (visited : SetModel α) (result : List α) (count : ℕ) :
    (vis start = true → start ∈ stack ∨ SetModel.has hash visited start = true) →
    (∀ x, SetModel.has hash visited x = true → ∀ u ∈ nbrs x, vis u = true →
        u ∈ stack ∨ SetModel.has hash visited u = true) →
    (vis start = true →
        SetModel.has hash (searchLoop hash vis nbrs stack visited result count).1 start = true) ∧
    (∀ x, SetModel.has hash (searchLoop hash vis nbrs stack visited result count).1 x = true →
        ∀ u ∈ nbrs x, vis u = true →
        SetModel.has hash (searchLoop hash vis nbrs stack visited result count).1 u = true) := by
  induction stack, visited, result, count using searchLoop.induct hash vis nbrs with
  | case1 visited result count =>
      intro hstart hclosed
      constructor
      · intro hvstart
        rcases hstart hvstart with h | h
        · cases h
        · simpa [searchLoop] using h
      · intro x hx u hu hvu
        simp only [searchLoop] at hx ⊢
        rcases hclosed x hx u hu hvu with h | h
        · cases h
        · exact h
  | case2 tile stack visited result count hv ih =>
      intro hstart hclosed
      rw [searchLoop, if_pos hv]
      apply ih
      · intro hvstart
        rcases hstart hvstart with h | h
        · rcases List.mem_cons.1 h with rfl | h'
          · exact Or.inr hv
          · exact Or.inl h'
        · exact Or.inr h
      · intro x hx u hu hvu
        rcases hclosed x hx u hu hvu with h | h
        · rcases List.mem_cons.1 h with rfl | h'
          · exact Or.inr hv
          · exact Or.inl h'
        · exact Or.inr h
  | case3 tile stack visited result count hv hinvis ih =>
      intro hstart hclosed
      rw [searchLoop, if_neg hv, if_pos hinvis]
      have hvf : vis tile = false := by simpa using hinvis
      apply ih
      · intro hvstart
        rcases hstart hvstart with h | h
        · rcases List.mem_cons.1 h with rfl | h'
          · rw [hvstart] at hvf
            cases hvf
          · exact Or.inl h'
        · exact Or.inr h
      · intro x hx u hu hvu
        rcases hclosed x hx u hu hvu with h | h
        · rcases List.mem_cons.1 h with rfl | h'
          · rw [hvu] at hvf
            cases hvf
          · exact Or.inl h'
        · exact Or.inr h
  | case4 tile stack visited result count hv hvis ih =>
      intro hstart hclosed
      rw [searchLoop, if_neg hv, if_neg hvis]
      have haddt : SetModel.has hash (SetModel.add hash visited tile).1 tile = true :=
        (SetModel.has_add hash visited tile tile).2 (Or.inl rfl)
      apply ih
      · intro hvstart
        rcases hstart hvstart with h | h
        · rcases List.mem_cons.1 h with rfl | h'
          · exact Or.inr haddt
          · exact Or.inl (List.mem_append_right _ h')
        · exact Or.inr ((SetModel.has_add hash visited tile start).2 (Or.inr h))
      · intro x hx u hu hvu
        rcases (SetModel.has_add hash visited tile x).1 hx with rfl | hvx
        · exact Or.inl (List.mem_append_left _ (List.mem_reverse.2 hu))
        · rcases hclosed x hvx u hu hvu with h | h
          · rcases List.mem_cons.1 h with rfl | h'
            · exact Or.inr haddt
            · exact Or.inl (List.mem_append_right _ h')
          · exact Or.inr ((SetModel.has_add hash visited tile u).2 (Or.inr h))

/-- A reachable tile is visible. -/
theorem reachVis_vis {α : Type} (vis : α → Bool) (nbrs : α → List α) (start t : α)
    (h : ReachVis vis nbrs start t) : vis t = true := by
  induction h with
  | refl h => exact h
  | step hr hn hv ih => exact hv

/-- Reachability preserves any tile attribute preserved by neighbors. -/
theorem reachVis_level {α : Type} (vis : α → Bool) (nbrs : α → List α) (lvl : α → ℤ)
    (start t : α) (hlvl : ∀ a b, b ∈ nbrs a → lvl b = lvl a)
    (h : ReachVis vis nbrs start t) : lvl t = lvl start := by
  induction h with
  | refl h => rfl
  | step hr hn hv ih =>
      rw [hlvl _ _ hn]
      exact ih

/-- A set containing the visible starting tile and closed under visible
neighbors contains every reachable tile. -/
theorem reachVis_of_closed {α : Type} [DecidableEq α] (hash : α → ℤ)
    (vis : α → Bool) (nbrs : α → List α) (start : α) (V : SetModel α)
    (hstart : vis start = true → SetModel.has hash V start = true)
    (hclosed : ∀ x, SetModel.has hash V x = true → ∀ u ∈ nbrs x, vis u = true →
        SetModel.has hash V u = true) :
    ∀ t, ReachVis vis nbrs start t → SetModel.has hash V t = true := by
  intro t h
  induction h with
  | refl h => exact hstart h
  | step hr hn hv ih => exact hclosed _ ih _ hn hv

/-- A visible chain from the start to `t` yields reachability. -/
theorem chain_reachVis_aux {α : Type} (vis : α → Bool) (nbrs : α → List α) (start : α) :
    ∀ c : List α, ∀ t, VisibleChain vis nbrs c → c.head? = some start →
      c.getLast? = some t → ReachVis vis nbrs start t := by
  intro c
  induction c using List.reverseRecOn with
  | nil =>
      intro t _ hh _
      cases hh
  | append_singleton c' u ih =>
      intro t hchain hh hl
      have ht : t = u := by
        rw [List.getLast?_concat] at hl
        exact (Option.some_inj.1 hl).symm
      subst ht
      obtain ⟨hcv, hcc⟩ := hchain
      cases c' with
      | nil =>
          have hsu : t = start := by simpa using hh
          subst hsu
          exact ReachVis.refl (hcv _ (by simp))
      | cons a c'' =>
          rw [List.chain'_append] at hcc
          obtain ⟨hcc1, _, hcross⟩ := hcc
          have hne : (a :: c'') ≠ ([] : List α) := by simp
          have hlast : (a :: c'').getLast? = some ((a :: c'').getLast hne) :=
            List.getLast?_eq_getLast _ hne
          have hreach : ReachVis vis nbrs start ((a :: c'').getLast hne) := by
            apply ih
            · exact ⟨fun x hx => hcv x (List.mem_append_left _ hx), hcc1⟩
            · simpa using hh
            · exact hlast
          have hnb : t ∈ nbrs ((a :: c'').getLast hne) := by
            apply hcross
            · rw [hlast]
              rfl
            · rfl
          exact ReachVis.step hreach hnb (hcv t (List.mem_append_right _ (by simp)))

/-- Reachability coincides with the existence of a visible chain. -/
theorem reachVis_iff_chain {α : Type} (vis : α → Bool) (nbrs : α → List α) (start t : α) :
    ReachVis vis nbrs start t ↔
      ∃ c : List α, VisibleChain vis nbrs c ∧ c.head? = some start ∧
        c.getLast? = some t := by
  constructor
  · intro h
    induction h with
    | refl h =>
        exact ⟨[start], ⟨fun x hx => by rw [List.mem_singleton.1 hx]; exact h,
          List.chain'_singleton _⟩, rfl, rfl⟩
    | step hr hn hv ih =>
        obtain ⟨c, ⟨hcv, hcc⟩, hh, hl⟩ := ih
        rename_i t' u
        refine ⟨c ++ [u], ⟨?_, ?_⟩, ?_, ?_⟩
        · intro x hx
          rcases List.mem_append.1 hx with h' | h'
          · exact hcv x h'
          · rw [List.mem_singleton.1 h']
            exact hv
        · rw [List.chain'_append]
          refine ⟨hcc, List.chain'_singleton _, ?_⟩
          intro x hx y hy
          rw [hl] at hx
          cases hx
          cases hy
          exact hn
        · cases c with
          | nil => cases hh
          | cons a c' => simpa using hh
        · rw [List.getLast?_concat]
  · rintro ⟨c, hchain, hh, hl⟩
    exact chain_reachVis_aux vis nbrs start c t hchain hh hl

/-- C2: `TileSearcher.search` appends to the result exactly the tiles
reachable from the starting tile through a chain of visible neighbors
(`t0 = startingTile, ..., tk = t`, every `ti` passing the view's intersection
test and each `t(i+1)` among `ti.neighbors()`): no appended tile fails the
intersection test, no reachable visible tile is omitted, no tile is appended
twice, the returned count equals the number of appended tiles, and — when
neighbors stay within a level — every appended tile is of the starting
tile's level. -/
theorem tileSearcher_search_correct {α : Type} [DecidableEq α] [Fintype α]
    (hash : α → ℤ) (vis : α → Bool) (nbrs : α → List α) (lvl : α → ℤ)
    (startingTile : α) (result : List α)
    (hlvl : ∀ a b, b ∈ nbrs a → lvl b = lvl a) :
    ∃ app : List α,
      TileSearcher.search hash vis nbrs startingTile result = (result ++ app, app.length) ∧
      app.Nodup ∧
      (∀ t, t ∈ app ↔ ∃ c : List α, VisibleChain vis nbrs c ∧
          c.head? = some startingTile ∧ c.getLast? = some t) ∧
      (∀ t ∈ app, vis t = true) ∧
      (∀ t ∈ app, lvl t = lvl startingTile) := by
  obtain ⟨app, h1, h2, h3, h4⟩ := searchLoop_delta hash vis nbrs [startingTile]
    (SetModel.mkDefault α) result 0
  have hsound := searchLoop_sound hash vis nbrs startingTile [startingTile]
    (SetModel.mkDefault α) result 0
    (fun x hx => by rw [SetModel.has_mkDefault] at hx; cases hx)
    (fun y hy => Or.inl (List.mem_singleton.1 hy))
  have hclosed := searchLoop_closure hash vis nbrs startingTile [startingTile]
    (SetModel.mkDefault α) result 0
    (fun _ => Or.inl (List.mem_singleton.2 rfl))
    (fun x hx => by rw [SetModel.has_mkDefault] at hx; cases hx)
  have hmemV : ∀ t, t ∈ app ↔ SetModel.has hash
      (searchLoop hash vis nbrs [startingTile] (SetModel.mkDefault α) result 0).1 t = true := by
    intro t
    rw [h4 t]
    simp [SetModel.has_mkDefault]
  have hiff : ∀ t, SetModel.has hash
      (searchLoop hash vis nbrs [startingTile] (SetModel.mkDefault α) result 0).1 t = true ↔
      ReachVis vis nbrs startingTile t := by
    intro t
    constructor
    · exact fun h => (hsound t h).2
    · exact reachVis_of_closed hash vis nbrs startingTile _ hclosed.1 hclosed.2 t
  refine ⟨app, ?_, h3, ?_, ?_, ?_⟩
  · rw [TileSearcher.search, h1, h2]
    simp
  · intro t
    rw [hmemV t, hiff t, reachVis_iff_chain]
  · intro t ht
    exact (hsound t ((hmemV t).1 ht)).1
  · intro t ht
    exact reachVis_level vis nbrs lvl startingTile t hlvl ((hiff t).1 ((hmemV t).1 ht))

/-- Witness for C2: the theorem applied to a concrete three-tile line over
`Fin 3` whose two lower tiles are visible, with a constant level map. -/
theorem tileSearcher_search_correct_witness :
    ∃ app : List (Fin 3),
      TileSearcher.search (fun i => (i.val : ℤ)) (fun i => decide (i.val ≤ 1))
          (fun i => [i + 1]) 0 [] = ([] ++ app, app.length) ∧
      app.Nodup ∧
      (∀ t, t ∈ app ↔ ∃ c : List (Fin 3),
          VisibleChain (fun i => decide (i.val ≤ 1)) (fun i => [i + 1]) c ∧
          c.head? = some 0 ∧ c.getLast? = some t) ∧
      (∀ t ∈ app, decide (t.val ≤ 1) = true) ∧
      (∀ t ∈ app, (fun _ : Fin 3 => (0 : ℤ)) t = (fun _ : Fin 3 => (0 : ℤ)) 0) :=
  tileSearcher_search_correct (fun i => (i.val : ℤ)) (fun i => decide (i.val ≤ 1))
    (fun i => [i + 1]) (fun _ => 0) 0 [] (fun _ _ _ => rfl)

/-- C9: when the starting tile fails the view's intersection test, the search
appends nothing and returns count zero, and the geometry's `visibleTiles`
caller (whose viewport is nonempty) throws `Starting tile is not visible`
instead of silently returning an empty tile set. -/
theorem search_invisible_start {α : Type} [DecidableEq α] [Fintype α] (hash : α → ℤ)
    (vis : α → Bool) (nbrs : α → List α) (viewWidth viewHeight : ℕ)
    (closestTile : α) (result : List α)
    (hstart : vis closestTile = false) (hw : viewWidth ≠ 0) (hhgt : viewHeight ≠ 0) :
    TileSearcher.search hash vis nbrs closestTile result = (result, 0) ∧
    visibleTiles hash vis nbrs viewWidth viewHeight closestTile result =
      .error JsErr.startingTileNotVisible := by
  have hsearch : TileSearcher.search hash vis nbrs closestTile result = (result, 0) := by
    rw [TileSearcher.search]
    simp [searchLoop, SetModel.has_mkDefault, hstart]
  refine ⟨hsearch, ?_⟩
  rw [visibleTiles, if_neg (by simp [hw, hhgt])]
  simp [hsearch]

/-- Witness for C9 at a concrete input: a one-tile type whose tile is
invisible, with a 10×10 viewport. -/
theorem search_invisible_start_witness :
    TileSearcher.search (fun i => (i.val : ℤ)) (fun _ => false) (fun i => [i])
      (0 : Fin 1) [] = ([], 0) ∧
    visibleTiles (fun i => (i.val : ℤ)) (fun _ => false) (fun i => [i]) 10 10
      (0 : Fin 1) [] = .error JsErr.startingTileNotVisible :=
  search_invisible_start (fun i => (i.val : ℤ)) (fun _ => false) (fun i => [i]) 10 10
    (0 : Fin 1) [] rfl (by decide) (by decide)

end Marzipano
